import Mathlib

/-!
# Verification of the NPSMLE joint price-volatility core (`src/include/Joint.h`)

Shallow embedding of `NPSMLE::simulate_joint_process` and
`NPSMLE::simulated_ll_joint` over the real numbers.  IEEE doubles are
modelled as exact reals; the special values of the double type that the
source can reach through `log(0.0)` and the `INFINITY_CHECK` guard are
modelled by working with the log-likelihood accumulator in `EReal`
(so that `log 0 = ⊥` is representable, as in C).

The random engine of the simulator (`std::mt19937_64` plus
`std::normal_distribution`) is externalized as the stream `draws : ℕ → ℝ`
of successive standard-normal variates, consumed in the exact order the
source draws them (two per sub-step: first the volatility shock, then the
raw price shock).  The evaluator draws nothing: it consumes the pre-drawn
buffers held in its wrapper, exactly as in the source.
-/

noncomputable section

open scoped Classical
open BigOperators Real

namespace NPSMLE

/-- Model parameters, fields in the unpack order of `simulate_joint_process`
(`Joint.h` lines 11-17).  The struct itself is declared in a header that is
not under `src/`; its fields are exactly the seven read in `Joint.h`. -/
structure JointParameters where
  mu_p : ℝ
  gamma_p : ℝ
  gamma_v : ℝ
  mu_v : ℝ
  beta_v : ℝ
  sigma_v : ℝ
  rho_pv : ℝ

/-- The Cholesky-style correlated-innovation mix
`W_p = sqrt(1 - rho*rho) * z + rho * W_v`, as written at `Joint.h:45`
(simulator) and `Joint.h:104` (evaluator). -/
def wiener_mix (rho z wv : ℝ) : ℝ :=
  Real.sqrt (1 - rho * rho) * z + rho * wv

/-- One Euler-Maruyama sub-step of the single-path simulator
(`Joint.h` lines 44-53), acting on the pair `(price, volatility)`.
`delta` is the sub-step size `dt / M_obs`, `sent` the sentiment value used
in the volatility drift, `wv` and `wp` the (already mixed) Wiener
increments. -/
def simulator_substep (pars : JointParameters) (delta sent wp wv : ℝ)
    (pv : ℝ × ℝ) : ℝ × ℝ :=
  let mp := pars.gamma_p * (pars.mu_p - pv.1)
  let sp := pv.1 * Real.sqrt |pv.2|
  let p' := pv.1 + (mp * delta + wp * sp * Real.sqrt delta)
  let mv := pars.gamma_v * (pars.mu_v + pars.beta_v * |sent| - pv.2)
  let sv := pars.sigma_v * Real.sqrt |pv.2|
  let v' := pv.2 + (mv * delta + wv * sv * Real.sqrt delta)
  (p', v')

/-- Iterate a sub-step function `step` (whose first argument is the sub-step
index) `n` times, in index order `0, 1, ..., n-1`. -/
def iterate_substeps (step : ℕ → ℝ × ℝ → ℝ × ℝ) : ℕ → ℝ × ℝ → ℝ × ℝ
  | 0, pv => pv
  | n + 1, pv => step n (iterate_substeps step n pv)

/-- The single-path simulator `simulate_joint_process` (`Joint.h` 7-55).
Returns the pair `(price[i], volatility[i])` as a function of the
observation index `i`; the C++ fills the output arrays at indices
`0 ≤ i < N_obs` with exactly these values.  At observation step `i+1`,
sub-step `j`, the source first draws the volatility shock
(`draws (2*(i*M_obs + j))`) and then the raw price shock
(`draws (2*(i*M_obs + j) + 1)`), mixes them with `wiener_mix`, and reads
the sentiment series at the coarse index `i+1`. -/
def simulate_joint_process (draws sentiment : ℕ → ℝ) (pars : JointParameters)
    (dt : ℝ) (M_obs : ℕ) (p0 v0 : ℝ) : ℕ → ℝ × ℝ
  | 0 => (p0, v0)
  | i + 1 =>
    iterate_substeps
      (fun j pv =>
        simulator_substep pars (dt / (M_obs : ℝ)) (sentiment (i + 1))
          (wiener_mix pars.rho_pv (draws (2 * (i * M_obs + j) + 1))
            (draws (2 * (i * M_obs + j))))
          (draws (2 * (i * M_obs + j))) pv)
      M_obs (simulate_joint_process draws sentiment pars dt M_obs p0 v0 i)

/-- The data wrapper passed to `simulated_ll_joint` through its `void*`
argument.  The struct is declared in a header that is not under `src/`;
its fields are exactly those dereferenced in `Joint.h` lines 73-84.
Arrays are modelled as total functions on their index type. -/
structure WrapperSimulatedJoint where
  price : ℕ → ℝ
  volatility : ℕ → ℝ
  interpolated_sentiment : ℕ → ℝ
  simulated_price : ℕ → ℝ
  simulated_volatility : ℕ → ℝ
  random_buffer_price : ℕ → ℝ
  random_buffer_volatility : ℕ → ℝ
  wiener_price : ℕ → ℝ
  wiener_volatility : ℕ → ℝ
  N_obs : ℕ
  N_sim : ℕ
  M_sim : ℕ
  dt : ℝ

/-- Modelled from the spec: `max_double` is defined in a header that is not
under `src/`; the spec calls it "a large finite sentinel value"
(effectively infinite penalty), i.e. the largest finite double,
`(2^53 - 1) * 2^971`. -/
def max_double : ℝ := (2 ^ 53 - 1) * 2 ^ 971

/-- Modelled from the spec: `st_dev` is defined in `Other.h`, which is not
under `src/`.  The spec describes it as the standard deviation over the
first `N` ensemble entries and leaves the population-versus-sample
normalization open; it is modelled here as the population (divide by `N`)
estimator. -/
def st_dev (f : ℕ → ℝ) (N : ℕ) : ℝ :=
  let mean := (∑ j ∈ Finset.range N, f j) / (N : ℝ)
  Real.sqrt ((∑ j ∈ Finset.range N, (f j - mean) ^ 2) / (N : ℝ))

/-- The constant `dimy` of `Joint.h:90` (`const int dimy = 1`), as the
double it is promoted to in the bandwidth arithmetic. -/
def dimy : ℝ := 1

/-- The constant `undersmooth = 0.5` of `Joint.h:92`. -/
def undersmooth : ℝ := 0.5

/-- The bandwidth fraction of `Joint.h:93`, exactly as the source computes
it: `pow(4.0 / dimy + 2.0, 1.0 / (dimy + 4.0)) *
pow(N_sim, -(1.0 + undersmooth) / (dimy + 4.0))`.  Note the first base is
`4.0 / dimy + 2.0` (which is `6` for `dimy = 1`), not `4 / (dimy + 2)`. -/
def h_frac (N_sim : ℕ) : ℝ :=
  (4 / dimy + 2) ^ ((1 : ℝ) / (dimy + 4)) *
    (N_sim : ℝ) ^ (-(1 + undersmooth) / (dimy + 4))

/-- The filled correlated volatility shock buffer (`Joint.h` 101-105):
indices below `N_sim * M_sim` are overwritten with
`random_buffer_volatility`, the rest of the scratch array keeps its
previous (caller-owned) content. -/
def fill_W_v (w : WrapperSimulatedJoint) : ℕ → ℝ := fun idx =>
  if idx < w.N_sim * w.M_sim then w.random_buffer_volatility idx
  else w.wiener_volatility idx

/-- The filled correlated price shock buffer (`Joint.h` 101-105):
indices below `N_sim * M_sim` are overwritten with the `wiener_mix` of the
raw price draw with the volatility shock just written at the same index. -/
def fill_W_p (w : WrapperSimulatedJoint) (rho : ℝ) : ℕ → ℝ := fun idx =>
  if idx < w.N_sim * w.M_sim then
    wiener_mix rho (w.random_buffer_price idx) (w.random_buffer_volatility idx)
  else w.wiener_price idx

/-- One Euler-Maruyama sub-step of the evaluator ensemble propagation
(`Joint.h` 117-123).  Note that the source computes
`sqrt_vol = simulated_price[j] * sqrt(abs(simulated_volatility[j]))` once
and reuses it in BOTH the price diffusion and the volatility diffusion, so
the volatility diffusion here is `wv * (p * sqrt |v|) * sigma_v * sqrt delta`,
carrying the price factor. -/
def evaluator_substep (pars : JointParameters) (delta sent wp wv : ℝ)
    (pv : ℝ × ℝ) : ℝ × ℝ :=
  let mp := pars.gamma_p * (pars.mu_p - pv.1)
  let sqrt_vol := pv.1 * Real.sqrt |pv.2|
  let p' := pv.1 + (mp * delta + wp * sqrt_vol * Real.sqrt delta)
  let mv := pars.gamma_v * (pars.mu_v + pars.beta_v * |sent| - pv.2)
  let v' := pv.2 + (mv * delta + wv * sqrt_vol * pars.sigma_v * Real.sqrt delta)
  (p', v')

/-- Ensemble member `j` of observation step `i`, after `k` sub-steps
(`Joint.h` 110-123).  The base case `k = 0` is the reset
`simulated_price[j] = price[i-1]`, `simulated_volatility[j] = volatility[i-1]`;
sub-step `k` reads the shock buffers at the flattened index `j*M_sim + k`
and the sentiment series at the fine index `(i-1)*M_sim + k`. -/
def propagate_member (pars : JointParameters) (w : WrapperSimulatedJoint)
    (i j : ℕ) : ℕ → ℝ × ℝ
  | 0 => (w.price (i - 1), w.volatility (i - 1))
  | k + 1 =>
    evaluator_substep pars (w.dt / (w.M_sim : ℝ))
      (w.interpolated_sentiment ((i - 1) * w.M_sim + k))
      (fill_W_p w pars.rho_pv (j * w.M_sim + k))
      (fill_W_v w (j * w.M_sim + k))
      (propagate_member pars w i j k)

/-- The caller-owned ensemble scratch arrays after the body of observation
step `i` (`Joint.h` 108-124): slots `j < N_sim` are overwritten with the
propagated member values, slots beyond keep the incoming content
`sP` / `sV` (the arrays persist inside the wrapper across steps). -/
def ensemble_after (pars : JointParameters) (w : WrapperSimulatedJoint)
    (i : ℕ) (sP sV : ℕ → ℝ) : (ℕ → ℝ) × (ℕ → ℝ) :=
  (fun j => if j < w.N_sim then (propagate_member pars w i j w.M_sim).1 else sP j,
   fun j => if j < w.N_sim then (propagate_member pars w i j w.M_sim).2 else sV j)

/-- C `log` on the nonnegative reals, valued in `EReal`: `log 0 = -∞`.
The argument fed to it by the source (`kernel_sum / N_sim`) is a sum of
nonnegative kernel terms, so the negative branch (where C would produce a
NaN) is never reached; it is mapped to `⊥` as well. -/
def elog (x : ℝ) : EReal := if x ≤ 0 then ⊥ else ((Real.log x : ℝ) : EReal)

/-- The log-likelihood contribution of observation step `i`
(`Joint.h` 126-138): propagate the ensemble, compute the two kernel
bandwidths from the ensemble standard deviations, sum the products of the
two univariate Gaussian kernels evaluated at the observed next state, and
take `log(kernel_sum / N_sim)`. -/
def step_term (pars : JointParameters) (w : WrapperSimulatedJoint) (i : ℕ) :
    EReal :=
  let spf := fun j => (propagate_member pars w i j w.M_sim).1
  let svf := fun j => (propagate_member pars w i j w.M_sim).2
  let h_price := h_frac w.N_sim * st_dev spf w.N_sim
  let h_volatility := h_frac w.N_sim * st_dev svf w.N_sim
  let kernel_sum := ∑ j ∈ Finset.range w.N_sim,
    (Real.exp (-(svf j - w.volatility i) * (svf j - w.volatility i) /
        (2 * h_volatility * h_volatility)) /
      (h_volatility * Real.sqrt (2 * Real.pi))) *
    (Real.exp (-(spf j - w.price i) * (spf j - w.price i) /
        (2 * h_price * h_price)) /
      (h_price * Real.sqrt (2 * Real.pi)))
  elog (kernel_sum / (w.N_sim : ℝ))

/-- `std::isnormal` on the embedded accumulator values: false exactly for
the infinities and for zero.  (NaN and subnormal doubles have no
counterpart in the exact-real embedding.) -/
def is_normal_e (x : EReal) : Prop := x ≠ ⊥ ∧ x ≠ ⊤ ∧ x ≠ 0

/-- The `INFINITY_CHECK` guard condition of `Joint.h:143`:
`ll == -INFINITY || !std::isnormal(ll)`. -/
def infinity_guard (ll : EReal) : Prop := ll = ⊥ ∨ ¬ is_normal_e ll

/-- Partial accumulation of step terms: `acc_from pars w i0 ll0 n` is the
accumulator after adding the terms of the `n` observation steps
`i0, i0+1, ..., i0+n-1` starting from `ll0`. -/
def acc_from (pars : JointParameters) (w : WrapperSimulatedJoint) (i0 : ℕ)
    (ll0 : EReal) : ℕ → EReal
  | 0 => ll0
  | n + 1 => acc_from pars w i0 ll0 n + step_term pars w (i0 + n)

/-- The running log-likelihood accumulator after the observation steps
`1, ..., i` (the value of `ll` at the bottom of the `i`-th iteration of the
main loop of `Joint.h` 107-148). -/
def ll_after (pars : JointParameters) (w : WrapperSimulatedJoint) (i : ℕ) :
    EReal := acc_from pars w 1 0 i

/-- The main loop of `simulated_ll_joint` (`Joint.h` 107-150) with `n`
iterations left, current step index `i`, accumulator `ll`.  When `check`
is true (the `INFINITY_CHECK` build), the guard at the bottom of each
iteration returns the sentinel `max_double`; after the loop the function
returns `-ll`. -/
def eval_loop (check : Bool) (pars : JointParameters)
    (w : WrapperSimulatedJoint) : EReal → ℕ → ℕ → EReal
  | ll, _, 0 => -ll
  | ll, i, n + 1 =>
    if check = true ∧ infinity_guard (ll + step_term pars w i) then
      (max_double : EReal)
    else eval_loop check pars w (ll + step_term pars w i) (i + 1) n

/-- `simulated_ll_joint` with the seven parameters already unpacked into a
`JointParameters` record. -/
def ll_joint_core (check : Bool) (pars : JointParameters)
    (w : WrapperSimulatedJoint) : EReal :=
  eval_loop check pars w 0 1 (w.N_obs - 1)

/-- The evaluator `simulated_ll_joint` (`Joint.h` 57-151).  `check` models
whether the translation unit was compiled with `INFINITY_CHECK`.  The
record literal is the positional unpack of `Joint.h` 62-68:
`gamma_p = x[0]`, `mu_p = x[1]`, `gamma_v = x[2]`, `mu_v = x[3]`,
`beta_v = x[4]`, `sigma_v = x[5]`, `rho_pv = x[6]` (record field order is
`mu_p, gamma_p, gamma_v, mu_v, beta_v, sigma_v, rho_pv`). -/
def simulated_ll_joint (check : Bool) (x : Fin 7 → ℝ)
    (w : WrapperSimulatedJoint) : EReal :=
  ll_joint_core check ⟨x 1, x 0, x 2, x 3, x 4, x 5, x 6⟩ w

/-! ## General lemmas about the embedding -/

lemma iterate_substeps_snd (step : ℕ → ℝ × ℝ → ℝ × ℝ)
    (h : ∀ k pv, (step k pv).2 = pv.2) :
    ∀ n pv, (iterate_substeps step n pv).2 = pv.2 := by
  intro n
  induction n with
  | zero => intro pv; rfl
  | succ n ih =>
    intro pv
    rw [iterate_substeps, h, ih]

/-! ## Claims -/

/-- C6: in both the simulator (`Joint.h:45`) and the evaluator
(`Joint.h:104`), which build their correlated price shock with
`wiener_mix`, the mix satisfies the boundary identities: at `rho_pv = 0`
the price shock is exactly the independent raw draw, at `rho_pv = 1` it is
exactly the volatility shock, and at `rho_pv = -1` exactly its negation. -/
theorem c6_correlation_boundary (z wv : ℝ) :
    wiener_mix 0 z wv = z ∧ wiener_mix 1 z wv = wv ∧
      wiener_mix (-1) z wv = -wv := by
  refine ⟨?_, ?_, ?_⟩ <;> norm_num [wiener_mix]

/-- C1: the evaluator sub-step (`Joint.h` 117-123) and the simulator
sub-step (`Joint.h` 44-53) produce identical price updates on equal
inputs, but the volatility updates differ: the evaluator reuses
`sqrt_vol = price * sqrt(abs(vol))` in the volatility diffusion, so at the
state `(price, vol) = (2, 1)` with `sigma_v = 1`, `W_v = 1`, `delta = 1`
and all drifts zero, the evaluator yields volatility `3` while the
simulator discretization (which the claim says the evaluator must match up
to the explicit `sigma_v` factor) yields `2`. -/
theorem c1_evaluator_vs_simulator_substep :
    (∀ (pars : JointParameters) (delta sent wp wv p v : ℝ),
        (evaluator_substep pars delta sent wp wv (p, v)).1 =
          (simulator_substep pars delta sent wp wv (p, v)).1) ∧
      (evaluator_substep ⟨0, 0, 0, 0, 0, 1, 0⟩ 1 0 0 1 (2, 1)).2 = 3 ∧
      (simulator_substep ⟨0, 0, 0, 0, 0, 1, 0⟩ 1 0 0 1 (2, 1)).2 = 2 := by
  refine ⟨fun pars delta sent wp wv p v => rfl, ?_, ?_⟩ <;>
    norm_num [evaluator_substep, simulator_substep]

/-- C2: the bandwidth fraction computed by `Joint.h:93` at `N_sim = 1` is
`6 ^ (1/5)` (the source computes `4.0 / dimy + 2.0 = 6` as the base), and
this is strictly larger than the value `(4/3) ^ (1/5)` that the claimed
formula `(4/(d+2))^(1/(d+4))` produces, so the two disagree. -/
theorem c2_h_frac_code_value :
    h_frac 1 = (6 : ℝ) ^ ((1 : ℝ) / 5) ∧
      (4 / 3 : ℝ) ^ ((1 : ℝ) / 5) < (6 : ℝ) ^ ((1 : ℝ) / 5) := by
  constructor
  · norm_num [h_frac, dimy, undersmooth, Real.one_rpow]
  · exact Real.rpow_lt_rpow (by norm_num) (by norm_num) (by norm_num)

/-- C8: the evaluator reads its parameter vector in the fixed positional
order `[gamma_p, mu_p, gamma_v, mu_v, beta_v, sigma_v, rho_pv]`: feeding
the vector built in that order from a named parameter record gives exactly
the evaluator with those named parameters, each used in its stated role in
`ll_joint_core` (`gamma_p` as price mean-reversion speed, `mu_p` as price
long-run mean, `gamma_v` as volatility mean-reversion speed, `mu_v` as
volatility long-run mean, `beta_v` as sentiment sensitivity, `sigma_v` as
volatility diffusion scale, `rho_pv` as the correlation of the mix). -/
theorem c8_parameter_order (check : Bool) (pars : JointParameters)
    (w : WrapperSimulatedJoint) :
    simulated_ll_joint check
        ![pars.gamma_p, pars.mu_p, pars.gamma_v, pars.mu_v, pars.beta_v,
          pars.sigma_v, pars.rho_pv] w =
      ll_joint_core check pars w := rfl

/-- C9: if `mu_v = beta_v = gamma_v = sigma_v = 0` and `v0 = 0`, the
simulated volatility path of `simulate_joint_process` is exactly `0` at
every observation index, for every draw stream, sentiment path, and
remaining parameter. -/
theorem c9_degenerate_volatility (mu_p gamma_p rho : ℝ)
    (draws sent : ℕ → ℝ) (dt : ℝ) (M_obs : ℕ) (p0 : ℝ) (i : ℕ) :
    ((simulate_joint_process draws sent ⟨mu_p, gamma_p, 0, 0, 0, 0, rho⟩
        dt M_obs p0 0) i).2 = 0 := by
  induction i with
  | zero => rfl
  | succ i ih =>
    rw [simulate_joint_process,
      iterate_substeps_snd _ (fun k pv => by simp [simulator_substep]), ih]

/-- C3 counterexample: in the concrete zero-noise scenario
(`N_obs = 2, M_obs = 1, dt = 1, p0 = 100, v0 = 0.04, gamma_p = 1,
mu_p = 100, rho_pv = 0`, all draws `0`), with `gamma_v = 1, mu_v = 0,
beta_v = 1` and the sentiment series `0, 1, 1, ...`, the simulator uses
`sentiment[1]` in the volatility drift of step 1, so `volatility[1] = 1`,
whereas the formula of the claim (which reads `sentiment[0] = 0`) gives
`0`: the claimed identity fails at this input. -/
theorem c3_counterexample :
    ¬ (((simulate_joint_process (fun _ => 0)
            (fun n => if n = 0 then 0 else 1) ⟨100, 1, 1, 0, 1, 0, 0⟩
            1 1 100 0.04) 1).2 =
        0.04 + 1 * (0 + 1 * |(fun n => if n = 0 then (0 : ℝ) else 1) 0| -
          0.04) * 1) := by
  have h1 : ((simulate_joint_process (fun _ => 0)
      (fun n => if n = 0 then 0 else 1) ⟨100, 1, 1, 0, 1, 0, 0⟩
      1 1 100 0.04) 1).2 = 1 := by
    norm_num [simulate_joint_process, iterate_substeps, simulator_substep,
      wiener_mix]
  rw [h1]
  norm_num

/-- C3 amended: in the same scenario the zero-noise identities that do
hold are `price[1] = 100` and
`volatility[1] = volatility[0] + gamma_v * (mu_v + beta_v * |sentiment[1]|
- v0) * dt`, i.e. with the sentiment value at the coarse index `1` (the
index the simulator actually reads at step 1), for every sentiment path
and every `gamma_v, mu_v, beta_v, sigma_v`. -/
theorem c3_amended_zero_noise (gv mv bv sv : ℝ) (sent : ℕ → ℝ) :
    (simulate_joint_process (fun _ => 0) sent ⟨100, 1, gv, mv, bv, sv, 0⟩
        1 1 100 0.04) 1 =
      (100, 0.04 + gv * (mv + bv * |sent 1| - 0.04) * 1) := by
  norm_num [simulate_joint_process, iterate_substeps, simulator_substep,
    wiener_mix]

/-! ## Control flow of the main loop -/

lemma acc_from_succ_left (pars : JointParameters) (w : WrapperSimulatedJoint)
    (i0 : ℕ) (ll0 : EReal) (n : ℕ) :
    acc_from pars w i0 ll0 (n + 1) =
      acc_from pars w (i0 + 1) (ll0 + step_term pars w i0) n := by
  induction n with
  | zero => simp [acc_from]
  | succ n ih =>
    rw [acc_from, ih, acc_from]
    have h : i0 + 1 + n = i0 + (n + 1) := by omega
    rw [h]

lemma eval_loop_false (pars : JointParameters) (w : WrapperSimulatedJoint) :
    ∀ (n i0 : ℕ) (ll0 : EReal),
      eval_loop false pars w ll0 i0 n = -(acc_from pars w i0 ll0 n) := by
  intro n
  induction n with
  | zero => intro i0 ll0; rfl
  | succ n ih =>
    intro i0 ll0
    rw [eval_loop, if_neg (by simp), ih, ← acc_from_succ_left]

lemma eval_loop_sentinel (pars : JointParameters)
    (w : WrapperSimulatedJoint) :
    ∀ (n i0 : ℕ) (ll0 : EReal),
      (∃ k, k < n ∧ infinity_guard (acc_from pars w i0 ll0 (k + 1))) →
      eval_loop true pars w ll0 i0 n = max_double := by
  intro n
  induction n with
  | zero =>
    rintro i0 ll0 ⟨k, hk, -⟩
    exact absurd hk (Nat.not_lt_zero k)
  | succ n ih =>
    rintro i0 ll0 ⟨k, hk, hg⟩
    by_cases hguard : infinity_guard (ll0 + step_term pars w i0)
    · rw [eval_loop, if_pos ⟨rfl, hguard⟩]
    · rw [eval_loop, if_neg (by simp [hguard])]
      apply ih
      cases k with
      | zero => exact absurd (by simpa [acc_from] using hg) hguard
      | succ k' =>
        refine ⟨k', by omega, ?_⟩
        rw [← acc_from_succ_left]
        exact hg

/-- C4: with the `INFINITY_CHECK` build flag, the evaluator returns the
large finite sentinel `max_double` whenever the running log-likelihood
accumulator is non-finite (`⊥` or `⊤`) after some observation step, the
later steps never influencing the result; without the flag no
short-circuit occurs and the evaluator returns the negation of the fully
accumulated log-likelihood. -/
theorem c4_infinity_check_short_circuit :
    (∀ (x : Fin 7 → ℝ) (w : WrapperSimulatedJoint) (i : ℕ),
        1 ≤ i → i ≤ w.N_obs - 1 →
        (ll_after ⟨x 1, x 0, x 2, x 3, x 4, x 5, x 6⟩ w i = ⊥ ∨
          ll_after ⟨x 1, x 0, x 2, x 3, x 4, x 5, x 6⟩ w i = ⊤) →
        simulated_ll_joint true x w = max_double) ∧
      (∀ (x : Fin 7 → ℝ) (w : WrapperSimulatedJoint),
        simulated_ll_joint false x w =
          -(ll_after ⟨x 1, x 0, x 2, x 3, x 4, x 5, x 6⟩ w (w.N_obs - 1))) := by
  constructor
  · intro x w i h1 h2 h3
    apply eval_loop_sentinel
    refine ⟨i - 1, by omega, ?_⟩
    have hi : i - 1 + 1 = i := by omega
    rw [hi]
    cases h3 with
    | inl h => exact Or.inl h
    | inr h => exact Or.inr (fun hn => hn.2.1 h)
  · intro x w
    exact eval_loop_false _ w (w.N_obs - 1) 1 0

/-- C10: with the `INFINITY_CHECK` build flag, the guard
`!std::isnormal(ll)` also fires when the running log-likelihood
accumulator is exactly `0` after some observation step, so the evaluator
returns the sentinel `max_double` there even though `0` is a finite,
valid accumulator value. -/
theorem c10_isnormal_zero_guard (x : Fin 7 → ℝ) (w : WrapperSimulatedJoint)
    (i : ℕ) (h1 : 1 ≤ i) (h2 : i ≤ w.N_obs - 1)
    (h0 : ll_after ⟨x 1, x 0, x 2, x 3, x 4, x 5, x 6⟩ w i = 0) :
    simulated_ll_joint true x w = max_double := by
  apply eval_loop_sentinel
  refine ⟨i - 1, by omega, ?_⟩
  have hi : i - 1 + 1 = i := by omega
  rw [hi]
  exact Or.inr (fun hn => hn.2.2 h0)

/-- A tiny concrete wrapper: `N_obs = 2`, a single ensemble member
(`N_sim = 1`), no sub-steps (`M_sim = 0`), all series constant.  With no
propagation the single member sits exactly at the observed state, its
ensemble standard deviation is `0`, both bandwidths vanish, the kernel
terms vanish, and the step density is `0`, driving the accumulator to
`log 0 = ⊥` after the first (and only) observation step. -/
def w4 : WrapperSimulatedJoint :=
  ⟨fun _ => 1, fun _ => 1, fun _ => 0, fun _ => 0, fun _ => 0, fun _ => 0,
   fun _ => 0, fun _ => 0, fun _ => 0, 2, 1, 0, 1⟩

lemma w4_ll_bot : ll_after ⟨0, 0, 0, 0, 0, 0, 0⟩ w4 1 = ⊥ := by
  norm_num [ll_after, acc_from, step_term, propagate_member, st_dev, elog,
    w4, Finset.sum_range_one]

theorem c4_infinity_check_short_circuit_witness :
    simulated_ll_joint true (fun _ => 0) w4 = max_double :=
  c4_infinity_check_short_circuit.1 (fun _ => 0) w4 1 le_rfl
    (by norm_num [w4]) (Or.inl w4_ll_bot)

/-- C7: at every observation step the evaluator resets the whole ensemble
before propagating: every slot `j < N_sim` of the scratch arrays after the
step body holds the member propagated from the observed seed
`(price[i-1], volatility[i-1])` (which is exactly the member value before
any sub-step), independently of whatever the scratch arrays held when the
step began. -/
theorem c7_ensemble_reset (pars : JointParameters) (w : WrapperSimulatedJoint)
    (i : ℕ) (sP sV sP' sV' : ℕ → ℝ) (j : ℕ) (hj : j < w.N_sim) :
    (ensemble_after pars w i sP sV).1 j =
        (propagate_member pars w i j w.M_sim).1 ∧
      (ensemble_after pars w i sP sV).2 j =
        (propagate_member pars w i j w.M_sim).2 ∧
      (ensemble_after pars w i sP sV).1 j =
        (ensemble_after pars w i sP' sV').1 j ∧
      (ensemble_after pars w i sP sV).2 j =
        (ensemble_after pars w i sP' sV').2 j ∧
      propagate_member pars w i j 0 = (w.price (i - 1), w.volatility (i - 1))
    := by
  refine ⟨?_, ?_, ?_, ?_, rfl⟩ <;> simp [ensemble_after, hj]

theorem c7_ensemble_reset_witness :
    (ensemble_after ⟨0, 0, 0, 0, 0, 0, 0⟩ w4 1 (fun _ => 5) (fun _ => 6)).1 0 =
        (propagate_member ⟨0, 0, 0, 0, 0, 0, 0⟩ w4 1 0 w4.M_sim).1 ∧
      (ensemble_after ⟨0, 0, 0, 0, 0, 0, 0⟩ w4 1 (fun _ => 5) (fun _ => 6)).2 0 =
        (propagate_member ⟨0, 0, 0, 0, 0, 0, 0⟩ w4 1 0 w4.M_sim).2 ∧
      (ensemble_after ⟨0, 0, 0, 0, 0, 0, 0⟩ w4 1 (fun _ => 5) (fun _ => 6)).1 0 =
        (ensemble_after ⟨0, 0, 0, 0, 0, 0, 0⟩ w4 1 (fun _ => 7) (fun _ => 8)).1 0 ∧
      (ensemble_after ⟨0, 0, 0, 0, 0, 0, 0⟩ w4 1 (fun _ => 5) (fun _ => 6)).2 0 =
        (ensemble_after ⟨0, 0, 0, 0, 0, 0, 0⟩ w4 1 (fun _ => 7) (fun _ => 8)).2 0 ∧
      propagate_member ⟨0, 0, 0, 0, 0, 0, 0⟩ w4 1 0 0 =
        (w4.price 0, w4.volatility 0) :=
  c7_ensemble_reset ⟨0, 0, 0, 0, 0, 0, 0⟩ w4 1 (fun _ => 5) (fun _ => 6)
    (fun _ => 7) (fun _ => 8) 0 (by norm_num [w4])

/-! ## Determinism: the evaluator output depends only on the observed
series, the pre-drawn innovation buffers and the grid sizes.  The scratch
arrays (`simulated_price`, `simulated_volatility`, `wiener_price`,
`wiener_volatility`) are written before every read at the indices the
main loop touches, so their incoming content never reaches the result. -/

section Determinism

variable {w1 w2 : WrapperSimulatedJoint}

lemma st_dev_congr {f g : ℕ → ℝ} {N : ℕ} (h : ∀ j < N, f j = g j) :
    st_dev f N = st_dev g N := by
  have hmean : (∑ j ∈ Finset.range N, f j) = ∑ j ∈ Finset.range N, g j :=
    Finset.sum_congr rfl fun j hj => h j (Finset.mem_range.mp hj)
  simp only [st_dev]
  rw [hmean]
  congr 2
  exact Finset.sum_congr rfl fun j hj => by rw [h j (Finset.mem_range.mp hj)]

lemma propagate_member_congr
    (hp : w1.price = w2.price) (hv : w1.volatility = w2.volatility)
    (hs : w1.interpolated_sentiment = w2.interpolated_sentiment)
    (hrp : w1.random_buffer_price = w2.random_buffer_price)
    (hrv : w1.random_buffer_volatility = w2.random_buffer_volatility)
    (hns : w1.N_sim = w2.N_sim) (hms : w1.M_sim = w2.M_sim)
    (hdt : w1.dt = w2.dt) (pars : JointParameters) (i j : ℕ)
    (hj : j < w1.N_sim) :
    ∀ k, k ≤ w1.M_sim →
      propagate_member pars w1 i j k = propagate_member pars w2 i j k := by
  intro k
  induction k with
  | zero => intro _; simp [propagate_member, hp, hv]
  | succ k ih =>
    intro hk
    have hk' : k < w1.M_sim := by omega
    have hidx : j * w1.M_sim + k < w1.N_sim * w1.M_sim := by
      calc j * w1.M_sim + k < j * w1.M_sim + w1.M_sim := by omega
        _ = (j + 1) * w1.M_sim := by ring
        _ ≤ w1.N_sim * w1.M_sim := Nat.mul_le_mul_right _ hj
    have hidx2 : j * w2.M_sim + k < w2.N_sim * w2.M_sim := by
      rw [← hns, ← hms]; exact hidx
    have hδ : w1.dt / (w1.M_sim : ℝ) = w2.dt / (w2.M_sim : ℝ) := by
      rw [hdt, hms]
    have hsent : w1.interpolated_sentiment ((i - 1) * w1.M_sim + k) =
        w2.interpolated_sentiment ((i - 1) * w2.M_sim + k) := by
      rw [hs, hms]
    have hwp : fill_W_p w1 pars.rho_pv (j * w1.M_sim + k) =
        fill_W_p w2 pars.rho_pv (j * w2.M_sim + k) := by
      simp only [fill_W_p, if_pos hidx, if_pos hidx2]
      rw [hrp, hrv, hms]
    have hwv : fill_W_v w1 (j * w1.M_sim + k) =
        fill_W_v w2 (j * w2.M_sim + k) := by
      simp only [fill_W_v, if_pos hidx, if_pos hidx2]
      rw [hrv, hms]
    rw [propagate_member, propagate_member, ih (by omega), hδ, hsent, hwp,
      hwv]

lemma step_term_congr
    (hp : w1.price = w2.price) (hv : w1.volatility = w2.volatility)
    (hs : w1.interpolated_sentiment = w2.interpolated_sentiment)
    (hrp : w1.random_buffer_price = w2.random_buffer_price)
    (hrv : w1.random_buffer_volatility = w2.random_buffer_volatility)
    (hns : w1.N_sim = w2.N_sim) (hms : w1.M_sim = w2.M_sim)
    (hdt : w1.dt = w2.dt) (pars : JointParameters) (i : ℕ) :
    step_term pars w1 i = step_term pars w2 i := by
  have hmem : ∀ j < w1.N_sim,
      propagate_member pars w1 i j w1.M_sim =
        propagate_member pars w2 i j w2.M_sim := by
    intro j hj
    rw [← hms]
    exact propagate_member_congr hp hv hs hrp hrv hns hms hdt pars i j hj
      w1.M_sim le_rfl
  have h1 : ∀ j < w1.N_sim,
      (propagate_member pars w1 i j w1.M_sim).1 =
        (propagate_member pars w2 i j w2.M_sim).1 :=
    fun j hj => by rw [hmem j hj]
  have h2 : ∀ j < w1.N_sim,
      (propagate_member pars w1 i j w1.M_sim).2 =
        (propagate_member pars w2 i j w2.M_sim).2 :=
    fun j hj => by rw [hmem j hj]
  simp only [step_term]
  rw [hns, st_dev_congr (fun j hj => h1 j (hns ▸ hj)),
    st_dev_congr (fun j hj => h2 j (hns ▸ hj)), hv, hp]
  congr 1
  congr 1
  exact Finset.sum_congr rfl fun j hj => by
    rw [h1 j (hns ▸ Finset.mem_range.mp hj), h2 j (hns ▸ Finset.mem_range.mp hj)]

lemma eval_loop_congr (check : Bool) (pars : JointParameters)
    (hstep : ∀ i, step_term pars w1 i = step_term pars w2 i) :
    ∀ (n i0 : ℕ) (ll0 : EReal),
      eval_loop check pars w1 ll0 i0 n = eval_loop check pars w2 ll0 i0 n := by
  intro n
  induction n with
  | zero => intro i0 ll0; rfl
  | succ n ih =>
    intro i0 ll0
    rw [eval_loop, eval_loop, hstep i0]
    exact if_congr Iff.rfl rfl (ih (i0 + 1) (ll0 + step_term pars w2 i0))

end Determinism

/-- C5: the evaluator is a pure, deterministic function of the parameter
vector, the observed price/volatility/sentiment series, the pre-drawn
innovation buffers and the grid sizes: two wrappers that agree on those
(the caller-owned scratch arrays may hold anything) give exactly the same
result, in either build mode. -/
theorem c5_determinism (check : Bool) (x : Fin 7 → ℝ)
    (w1 w2 : WrapperSimulatedJoint)
    (hp : w1.price = w2.price) (hv : w1.volatility = w2.volatility)
    (hs : w1.interpolated_sentiment = w2.interpolated_sentiment)
    (hrp : w1.random_buffer_price = w2.random_buffer_price)
    (hrv : w1.random_buffer_volatility = w2.random_buffer_volatility)
    (hno : w1.N_obs = w2.N_obs) (hns : w1.N_sim = w2.N_sim)
    (hms : w1.M_sim = w2.M_sim) (hdt : w1.dt = w2.dt) :
    simulated_ll_joint check x w1 = simulated_ll_joint check x w2 := by
  simp only [simulated_ll_joint, ll_joint_core]
  rw [hno]
  exact eval_loop_congr check _
    (fun i => step_term_congr hp hv hs hrp hrv hns hms hdt _ i)
    (w2.N_obs - 1) 1 0

/-- A copy of `w4` whose four scratch arrays hold different junk. -/
def w5 : WrapperSimulatedJoint :=
  ⟨fun _ => 1, fun _ => 1, fun _ => 0, fun _ => 9, fun _ => 9, fun _ => 0,
   fun _ => 0, fun _ => 9, fun _ => 9, 2, 1, 0, 1⟩

theorem c5_determinism_witness :
    simulated_ll_joint true (fun _ => 0) w4 =
      simulated_ll_joint true (fun _ => 0) w5 :=
  c5_determinism true (fun _ => 0) w4 w5 rfl rfl rfl rfl rfl rfl rfl rfl rfl

/-! ## A concrete trial on which the accumulator is exactly zero

With two ensemble members placed symmetrically around the observed next
state, the step density is `exp(-1/(2 h^2))^2 / (2 pi h^2 s_p s_v)` where
`h` is the bandwidth fraction and `s_p`, `s_v` the two ensemble standard
deviations.  Choosing `s_p = 1` and `s_v = exp(-1/h^2) / (2 pi h^2)`
makes the density exactly `1`, hence the accumulated log-likelihood
exactly `0` after the single observation step. -/

/-- The bandwidth fraction for an ensemble of two members. -/
def c10h : ℝ := h_frac 2

/-- The ensemble volatility spread that makes the step density one. -/
def c10b : ℝ := Real.exp (-(1 / (c10h * c10h))) / (2 * Real.pi * (c10h * c10h))

lemma c10h_pos : 0 < c10h := by
  unfold c10h h_frac dimy undersmooth
  positivity

lemma c10b_pos : 0 < c10b := by
  have h := c10h_pos
  unfold c10b
  positivity

/-- Wrapper for the zero-accumulator trial: `N_obs = 2`, `N_sim = 2`,
`M_sim = 1`, `dt = 1`, observed price and volatility constant `1`,
sentiment `0`, raw price draws `-1, 1`, raw volatility draws
`-c10b, c10b`. -/
def w10 : WrapperSimulatedJoint :=
  ⟨fun _ => 1, fun _ => 1, fun _ => 0, fun _ => 0, fun _ => 0,
   fun idx => if idx = 0 then -1 else 1,
   fun idx => if idx = 0 then -c10b else c10b,
   fun _ => 0, fun _ => 0, 2, 2, 1, 1⟩

lemma w10_member0 :
    propagate_member ⟨0, 0, 0, 0, 0, 1, 0⟩ w10 1 0 1 = (0, 1 - c10b) := by
  norm_num [propagate_member, evaluator_substep, fill_W_p, fill_W_v,
    wiener_mix, w10]
  ring

lemma w10_member1 :
    propagate_member ⟨0, 0, 0, 0, 0, 1, 0⟩ w10 1 1 1 = (2, 1 + c10b) := by
  norm_num [propagate_member, evaluator_substep, fill_W_p, fill_W_v,
    wiener_mix, w10]

/-- Population standard deviation of a symmetric two-point ensemble. -/
lemma st_dev_pair (a t : ℝ) (ht : 0 ≤ t) :
    st_dev (fun j => if j = 0 then a - t else a + t) 2 = t := by
  simp only [st_dev, Finset.sum_range_succ, Finset.sum_range_zero]
  norm_num
  exact Real.sqrt_sq ht

lemma w10_step : step_term ⟨0, 0, 0, 0, 0, 1, 0⟩ w10 1 = 0 := by
  have hsp : st_dev
      (fun j => (propagate_member ⟨0, 0, 0, 0, 0, 1, 0⟩ w10 1 j w10.M_sim).1)
      w10.N_sim = 1 := by
    have hcong : ∀ j < w10.N_sim,
        (propagate_member ⟨0, 0, 0, 0, 0, 1, 0⟩ w10 1 j w10.M_sim).1 =
          (fun j => if j = 0 then (1 : ℝ) - 1 else 1 + 1) j := by
      intro j hj
      have hj2 : j < 2 := hj
      interval_cases j
      · rw [show w10.M_sim = 1 from rfl, w10_member0]
        norm_num
      · rw [show w10.M_sim = 1 from rfl, w10_member1]
        norm_num
    rw [st_dev_congr hcong]
    exact st_dev_pair 1 1 (by norm_num)
  have hsv : st_dev
      (fun j => (propagate_member ⟨0, 0, 0, 0, 0, 1, 0⟩ w10 1 j w10.M_sim).2)
      w10.N_sim = c10b := by
    have hcong : ∀ j < w10.N_sim,
        (propagate_member ⟨0, 0, 0, 0, 0, 1, 0⟩ w10 1 j w10.M_sim).2 =
          (fun j => if j = 0 then (1 : ℝ) - c10b else 1 + c10b) j := by
      intro j hj
      have hj2 : j < 2 := hj
      interval_cases j
      · rw [show w10.M_sim = 1 from rfl, w10_member0]
        norm_num
      · rw [show w10.M_sim = 1 from rfl, w10_member1]
        norm_num
    rw [st_dev_congr hcong]
    exact st_dev_pair 1 c10b c10b_pos.le
  simp only [step_term, hsp, hsv]
  rw [show h_frac w10.N_sim = c10h from rfl]
  rw [show w10.N_sim = 2 from rfl]
  rw [Finset.sum_range_succ, Finset.sum_range_succ, Finset.sum_range_zero]
  rw [show w10.M_sim = 1 from rfl, w10_member0, w10_member1]
  rw [show w10.price 1 = 1 from rfl, show w10.volatility 1 = 1 from rfl]
  norm_num
  have hh : c10h ≠ 0 := ne_of_gt c10h_pos
  have hb : c10b ≠ 0 := ne_of_gt c10b_pos
  have harg : -(c10b * c10b) / (2 * (c10h * c10b) * (c10h * c10b)) =
      -1 / (2 * c10h * c10h) := by
    field_simp
    ring
  rw [harg]
  have hE : Real.exp (-1 / (2 * c10h * c10h)) *
      Real.exp (-1 / (2 * c10h * c10h)) =
      Real.exp (-(1 / (c10h * c10h))) := by
    rw [← Real.exp_add]
    congr 1
    field_simp
    ring
  have hsq2 : Real.sqrt 2 * Real.sqrt 2 = 2 :=
    Real.mul_self_sqrt (by norm_num)
  have hsqpi : Real.sqrt Real.pi * Real.sqrt Real.pi = Real.pi :=
    Real.mul_self_sqrt Real.pi_pos.le
  have hprod : Real.exp (-1 / (2 * c10h * c10h)) /
        (c10h * c10b * (Real.sqrt 2 * Real.sqrt Real.pi)) *
        (Real.exp (-1 / (2 * c10h * c10h)) /
          (c10h * (Real.sqrt 2 * Real.sqrt Real.pi))) = 1 := by
    rw [show Real.exp (-1 / (2 * c10h * c10h)) /
          (c10h * c10b * (Real.sqrt 2 * Real.sqrt Real.pi)) *
          (Real.exp (-1 / (2 * c10h * c10h)) /
            (c10h * (Real.sqrt 2 * Real.sqrt Real.pi))) =
        Real.exp (-1 / (2 * c10h * c10h)) *
            Real.exp (-1 / (2 * c10h * c10h)) /
          (c10h * c10h * c10b *
            (Real.sqrt 2 * Real.sqrt 2 * (Real.sqrt Real.pi * Real.sqrt Real.pi)))
        from by ring]
    rw [hE, hsq2, hsqpi]
    rw [show c10b = Real.exp (-(1 / (c10h * c10h))) /
        (2 * Real.pi * (c10h * c10h)) from rfl]
    rw [div_eq_one_iff_eq (by
      have h1 := c10h_pos
      have h2 := c10b_pos
      have h3 := Real.exp_pos (-(1 / (c10h * c10h)))
      have h4 := Real.pi_pos
      positivity)]
    field_simp
    ring
  rw [hprod]
  norm_num [elog]

lemma w10_ll_zero : ll_after ⟨0, 0, 0, 0, 0, 1, 0⟩ w10 1 = 0 := by
  simp [ll_after, acc_from, w10_step]

theorem c10_isnormal_zero_guard_witness :
    simulated_ll_joint true ![0, 0, 0, 0, 0, 1, 0] w10 = max_double :=
  c10_isnormal_zero_guard ![0, 0, 0, 0, 0, 1, 0] w10 1 le_rfl
    (by norm_num [w10]) w10_ll_zero

end NPSMLE
